import Mathlib

/-!
Verification of the compression detection/dispatch utility
(`pkg/compression`): magic-byte format sniffing with stream
reconstruction, an auto-decompressing reader, and a by-name compression
dispatcher.

Modelling choices:
* A byte stream (`io.Reader`) is a `Reader`: the list of bytes it will
  yield, followed either by a clean end-of-stream (`fail = none`) or by a
  real I/O error identified by a numeric code (`fail = some e`).
* The third-party codec libraries (pgzip, bzip2, xz, zstd) are external
  to the repository; their stream objects are represented by tagged
  values (`WC`, `Algo`) and, where byte-level behaviour matters, by
  function parameters constrained to the interface contract the spec
  assigns them.
* Errors returned by the repository's own code are modelled faithfully:
  detection propagates the original error code unchanged, while
  `AutoDecompress` wraps causes with its stage-label messages.
-/

namespace Compression

/-- The four compression algorithms registered in `compressionAlgos`.
A value of this type stands for the corresponding `DecompressorFunc`
(`GzipDecompressor`, `Bzip2Decompressor`, `XzDecompressor`,
`ZstdDecompressor`) in the detection registry. -/
inductive Algo where
  | gzip
  | bzip2
  | xz
  | zstd
deriving DecidableEq

/-- A byte stream: the bytes it yields, then either clean end-of-stream
(`fail = none`) or a real I/O error with code `e` (`fail = some e`). -/
structure Reader where
  data : List Nat
  fail : Option Nat
deriving DecidableEq

/-- Outcome of a read attempt, mirroring Go `io` errors: `eof` is
`io.EOF`, `unexpectedEOF` is `io.ErrUnexpectedEOF`, and `ioError e` is any
other ("real") I/O error carrying its original code. -/
inductive ReadErr where
  | eof
  | unexpectedEOF
  | ioError (e : Nat)
deriving DecidableEq

/-- Size of the peek buffer in `DetectCompressionFormat`
(`buffer := [8]byte{}` in the source). -/
def detectBufferSize : Nat := 8

/-- The detection registry `compressionAlgos`: algorithm name, magic-byte
prefix, and decompressor (represented by its `Algo` tag), in source-text
order.  The Go map is unordered; the registered prefixes are pairwise
non-overlapping (proved below), so the order is immaterial. -/
def compressionAlgos : List (String × List Nat × Algo) :=
  [("gzip", [0x1F, 0x8B, 0x08], Algo.gzip),
   ("bzip2", [0x42, 0x5A, 0x68], Algo.bzip2),
   ("xz", [0xFD, 0x37, 0x7A, 0x58, 0x5A, 0x00], Algo.xz),
   ("zstd", [0x28, 0xB5, 0x2F, 0xFD], Algo.zstd)]

/-- The magic prefix registered for each algorithm in `compressionAlgos`. -/
def algoPrefix : Algo → List Nat
  | Algo.gzip => [0x1F, 0x8B, 0x08]
  | Algo.bzip2 => [0x42, 0x5A, 0x68]
  | Algo.xz => [0xFD, 0x37, 0x7A, 0x58, 0x5A, 0x00]
  | Algo.zstd => [0x28, 0xB5, 0x2F, 0xFD]

/-- The registry key under which each algorithm appears in
`compressionAlgos`. -/
def algoName : Algo → String
  | Algo.gzip => "gzip"
  | Algo.bzip2 => "bzip2"
  | Algo.xz => "xz"
  | Algo.zstd => "zstd"

/-- Length of the longest magic prefix registered in `compressionAlgos`. -/
def maxPrefixLen : Nat :=
  (compressionAlgos.map (fun e => e.2.1.length)).foldr max 0

/-- Model of `io.ReadAtLeast(input, buffer[:], len(buffer))` with the
8-byte buffer of `DetectCompressionFormat`: returns the bytes read, the
error (if any), and the remainder of the stream.  If at least
`detectBufferSize` bytes are available they are read with no error; a
shorter stream yields all its bytes together with `io.EOF` (nothing
read), `io.ErrUnexpectedEOF` (something read), or the stream's own real
error. -/
def readAtLeast8 (r : Reader) : List Nat × Option ReadErr × Reader :=
  if detectBufferSize ≤ r.data.length then
    (r.data.take detectBufferSize, none,
      ⟨r.data.drop detectBufferSize, r.fail⟩)
  else
    match r.fail with
    | some e => (r.data, some (ReadErr.ioError e), ⟨[], none⟩)
    | none =>
        (r.data,
         some (if r.data.length = 0 then ReadErr.eof else ReadErr.unexpectedEOF),
         ⟨[], none⟩)

/-- The matching loop of `DetectCompressionFormat`: scan the registry,
return the first entry whose prefix starts `buf` (via `bytes.HasPrefix`),
or the zero values (`""`, no decompressor) when none matches. -/
def findAlgo (buf : List Nat) :
    List (String × List Nat × Algo) → String × Option Algo
  | [] => ("", none)
  | (algoname, pre, d) :: rest =>
      if pre.isPrefixOf buf then (algoname, some d) else findAlgo buf rest

/-- `DetectCompressionFormat`: peek up to 8 bytes; a real I/O error is
returned unmodified with zero values for the other results; otherwise
match the bytes read against the registry and return the matched name and
decompressor (or `""`/`none`) together with the reconstructed stream
`io.MultiReader(bytes.NewReader(buffer[:n]), input)` — the peeked bytes
followed by the remainder of the input. -/
def DetectCompressionFormat (input : Reader) :
    String × Option Algo × Option Reader × Option Nat :=
  match readAtLeast8 input with
  | (_, some (ReadErr.ioError e), _) => ("", none, none, some e)
  | (buf, _, rest) =>
      match findAlgo buf compressionAlgos with
      | (name, d) => (name, d, some ⟨buf ++ rest.data, rest.fail⟩, none)

/-- `DetectCompression`: the name-less variant, dropping the first result
of `DetectCompressionFormat`. -/
def DetectCompression (input : Reader) :
    Option Algo × Option Reader × Option Nat :=
  match DetectCompressionFormat input with
  | (_, d, r, e) => (d, r, e)

/-- An error returned by `AutoDecompress`: the underlying cause wrapped
(`errors.Wrapf`) with a stage-label message. -/
inductive AutoErr where
  | wrapped (msg : String) (cause : Nat)
deriving DecidableEq

/-- The `io.ReadCloser` returned by `AutoDecompress`: either the
reconstructed stream in the `ioutil.NopCloser` adapter (no format
matched), or the stream produced by the matched decompressor, represented
by the bytes it decodes to. -/
inductive RC where
  | nopCloser (r : Reader)
  | decoded (bytes : List Nat)
deriving DecidableEq

/-- `AutoDecompress`: detect the format; on detection error, wrap it as
"Error detecting compression"; if a decompressor matched, run it on the
reconstructed stream, wrapping a construction failure as "Error
initializing decompression"; otherwise wrap the reconstructed stream in a
no-op closer.  The decompressor constructors live in external codec
libraries, so their behaviour is the parameter `D`, mapping the registry
entry (its `Algo` tag) and the stream it is given to either a
construction error or the decoded bytes. -/
def AutoDecompress (D : Algo → Reader → Except Nat (List Nat))
    (stream : Reader) : Option RC × Bool × Option AutoErr :=
  match DetectCompression stream with
  | (_, _, some e) =>
      (none, false, some (AutoErr.wrapped "Error detecting compression" e))
  | (some a, some r, none) =>
      match D a r with
      | Except.error e =>
          (none, false,
           some (AutoErr.wrapped "Error initializing decompression" e))
      | Except.ok bs => (some (RC.decoded bs), true, none)
  | (none, some r, none) => (some (RC.nopCloser r), false, none)
  | (some _, none, none) => (none, false, none)
  | (none, none, none) => (none, false, none)

/-- An `io.WriteCloser` produced by a compressor constructor: which codec
writer it is, the destination stream it wraps (identified by a numeric
tag), and the level it was constructed with where the codec takes one. -/
inductive WC where
  | gzipW (dest : Nat) (level : Option Int)
  | xzW (dest : Nat)
  | zstdW (dest : Nat) (level : Option Int)
deriving DecidableEq

/-- The codec a writer belongs to. -/
def WC.algo : WC → Algo
  | WC.gzipW _ _ => Algo.gzip
  | WC.xzW _ => Algo.xz
  | WC.zstdW _ _ => Algo.zstd

/-- A single-quote character as a string, for building the
`cannot find compressor for '%s'` message. -/
def squote : String := String.singleton (Char.ofNat 39)

/-- `pgzip.NewWriterLevel` (external library): rejects levels outside
the range accepted by the flate implementation, otherwise constructs a
gzip writer at that level. -/
def pgzipNewWriterLevel (dest : Nat) (l : Int) : Except String WC :=
  if -2 ≤ l ∧ l ≤ 9 then Except.ok (WC.gzipW dest (some l))
  else Except.error ("gzip: invalid compression level: " ++ toString l)

/-- `gzipCompressor`: with a level, defer to `pgzip.NewWriterLevel`;
without one, `pgzip.NewWriter` (library default level). -/
def gzipCompressor (dest : Nat) (level : Option Int) : Except String WC :=
  match level with
  | some l => pgzipNewWriterLevel dest l
  | none => Except.ok (WC.gzipW dest none)

/-- `bzip2Compressor`: compression is unsupported for bzip2; always an
error. -/
def bzip2Compressor (dest : Nat) (level : Option Int) : Except String WC :=
  Except.error "bzip2 compression not supported"

/-- `xzCompressor`: `return xz.NewWriter(r)` — the level argument is not
consulted. -/
def xzCompressor (dest : Nat) (level : Option Int) : Except String WC :=
  Except.ok (WC.xzW dest)

/-- `zstdCompressor` from the cgo build (`compression_cgo.go`):
`zstd.NewWriter` or `zstd.NewWriterLevel`, neither of which fails. -/
def zstdCompressor (dest : Nat) (level : Option Int) : Except String WC :=
  match level with
  | none => Except.ok (WC.zstdW dest none)
  | some l => Except.ok (WC.zstdW dest (some l))

/-- `zstdCompressor` from the non-cgo build (`compression_nocgo.go`):
always the "zstd not supported" error. -/
def zstdCompressorNocgo (dest : Nat) (level : Option Int) :
    Except String WC :=
  Except.error "zstd not supported"

/-- The `compressors` registry (cgo build), mapping algorithm name to
compressor function. -/
def compressors : List (String × (Nat → Option Int → Except String WC)) :=
  [("gzip", gzipCompressor),
   ("bzip2", bzip2Compressor),
   ("xz", xzCompressor),
   ("zstd", zstdCompressor)]

/-- `CompressStream`: look the name up in `compressors`; absent names get
the "cannot find compressor" error, otherwise the compressor runs on the
destination and level. -/
def CompressStream (dest : Nat) (name : String) (level : Option Int) :
    Except String WC :=
  match List.lookup name compressors with
  | none =>
      Except.error ("cannot find compressor for " ++ squote ++ name ++ squote)
  | some c => c dest level

end Compression

namespace Compression

/-- Two lists that both start a third are comparable; so a list sharing a
prefix relation with neither direction of `q` cannot start any list that
`q` starts. -/
theorem not_prefix_of_other {p q l : List Nat} (hq : q <+: l)
    (h1 : ¬ p <+: q) (h2 : ¬ q <+: p) : ¬ p <+: l := by
  intro hp
  rcases List.prefix_or_prefix_of_prefix hp hq with h | h
  · exact h1 h
  · exact h2 h

/-- A prefix no longer than the peek buffer survives truncation to the
buffer size. -/
theorem prefix_take_of_prefix {p l : List Nat} (h : p <+: l)
    (hn : p.length ≤ detectBufferSize) : p <+: l.take detectBufferSize := by
  obtain ⟨t, rfl⟩ := h
  rw [List.take_append_eq_append_take, List.take_of_length_le hn]
  exact ⟨_, rfl⟩

/-- Every prefix registered in `compressionAlgos` fits in the peek
buffer. -/
theorem algoPrefix_length_le (a : Algo) :
    (algoPrefix a).length ≤ detectBufferSize := by
  cases a <;> decide

/-- The registry scan finds exactly the algorithm whose magic prefix
starts the buffer: the four registered prefixes are pairwise
non-comparable, so at most one can match and the scan order is
immaterial. -/
theorem findAlgo_of_prefix (a : Algo) (buf : List Nat)
    (h : algoPrefix a <+: buf) :
    findAlgo buf compressionAlgos = (algoName a, some a) := by
  cases a with
  | gzip =>
      simp only [algoPrefix] at h
      simp [compressionAlgos, findAlgo, algoName,
        List.isPrefixOf_iff_prefix, h]
  | bzip2 =>
      simp only [algoPrefix] at h
      have h1 : ¬ ([0x1F, 0x8B, 0x08] : List Nat) <+: buf :=
        not_prefix_of_other h (by decide) (by decide)
      simp [compressionAlgos, findAlgo, algoName,
        List.isPrefixOf_iff_prefix, h, h1]
  | xz =>
      simp only [algoPrefix] at h
      have h1 : ¬ ([0x1F, 0x8B, 0x08] : List Nat) <+: buf :=
        not_prefix_of_other h (by decide) (by decide)
      have h2 : ¬ ([0x42, 0x5A, 0x68] : List Nat) <+: buf :=
        not_prefix_of_other h (by decide) (by decide)
      simp [compressionAlgos, findAlgo, algoName,
        List.isPrefixOf_iff_prefix, h, h1, h2]
  | zstd =>
      simp only [algoPrefix] at h
      have h1 : ¬ ([0x1F, 0x8B, 0x08] : List Nat) <+: buf :=
        not_prefix_of_other h (by decide) (by decide)
      have h2 : ¬ ([0x42, 0x5A, 0x68] : List Nat) <+: buf :=
        not_prefix_of_other h (by decide) (by decide)
      have h3 : ¬ ([0xFD, 0x37, 0x7A, 0x58, 0x5A, 0x00] : List Nat) <+: buf :=
        not_prefix_of_other h (by decide) (by decide)
      simp [compressionAlgos, findAlgo, algoName,
        List.isPrefixOf_iff_prefix, h, h1, h2, h3]

/-- Detection succeeds whenever the peek does not hit a real I/O error
(clean end-of-stream, or at least a full buffer of data available): the
result is the registry scan over the first 8 bytes together with a
reconstructed stream identical to the input. -/
theorem detect_succ (S : Reader)
    (h : S.fail = none ∨ detectBufferSize ≤ S.data.length) :
    DetectCompressionFormat S =
      ((findAlgo (S.data.take detectBufferSize) compressionAlgos).1,
       (findAlgo (S.data.take detectBufferSize) compressionAlgos).2,
       some S, none) := by
  obtain ⟨d, f⟩ := S
  by_cases hle : detectBufferSize ≤ d.length
  · simp [DetectCompressionFormat, readAtLeast8, hle, List.take_append_drop]
  · have hf : f = none := by
      rcases h with h | h
      · exact h
      · exact absurd h hle
    subst hf
    have htake : d.take detectBufferSize = d :=
      List.take_of_length_le (Nat.le_of_lt (Nat.lt_of_not_le hle))
    simp only [detectBufferSize] at hle htake ⊢
    by_cases hz : d.length = 0
    · simp [DetectCompressionFormat, readAtLeast8, detectBufferSize, hle, hz,
        htake]
    · simp [DetectCompressionFormat, readAtLeast8, detectBufferSize, hle, hz,
        htake]

/-- A real I/O error encountered while peeking is returned as-is, with
zero values for the name, decompressor and stream. -/
theorem detect_err (S : Reader) (e : Nat) (hf : S.fail = some e)
    (hshort : S.data.length < detectBufferSize) :
    DetectCompressionFormat S = ("", none, none, some e) := by
  obtain ⟨d, f⟩ := S
  simp only at hf hshort
  subst hf
  simp [DetectCompressionFormat, readAtLeast8, Nat.not_le.mpr hshort]

end Compression

namespace Compression

/-- In a registry whose entries pair each decompressor tag with its own
magic prefix, a successful scan certifies that the matched algorithm's
prefix starts the buffer. -/
theorem findAlgo_mem_prefix (L : List (String × List Nat × Algo)) :
    ∀ (buf : List Nat) (a : Algo),
      (∀ e ∈ L, e.2.1 = algoPrefix e.2.2) →
      (findAlgo buf L).2 = some a → algoPrefix a <+: buf := by
  induction L with
  | nil =>
      intro buf a _ h
      simp [findAlgo] at h
  | cons e rest ih =>
      intro buf a hinv h
      obtain ⟨nm, pre, d⟩ := e
      simp only [findAlgo] at h
      by_cases hp : pre.isPrefixOf buf
      · rw [if_pos hp] at h
        simp only at h
        have hd : d = a := Option.some_inj.mp h
        subst hd
        have hpre : pre = algoPrefix d := hinv _ (List.mem_cons_self _ _)
        rw [← hpre]
        exact List.isPrefixOf_iff_prefix.mp hp
      · rw [if_neg hp] at h
        exact ih buf a (fun x hx => hinv x (List.mem_cons_of_mem _ hx)) h

/-- Claim C2: for every input stream, the reconstructed stream returned
by `DetectCompressionFormat` is identical to the original — same bytes in
the same order (the peeked bytes restored at the front from the peek
buffer) followed by the remainder, with zero net consumption visible
downstream. -/
theorem detect_reconstructs_stream (S : Reader) (rs : Reader)
    (h : (DetectCompressionFormat S).2.2.1 = some rs) : rs = S := by
  by_cases hc : S.fail = none ∨ detectBufferSize ≤ S.data.length
  · rw [detect_succ S hc] at h
    exact (Option.some_inj.mp h).symm
  · push_neg at hc
    obtain ⟨hf, hlen⟩ := hc
    obtain ⟨e, he⟩ := Option.ne_none_iff_exists'.mp hf
    rw [detect_err S e he hlen] at h
    simp at h

/-- Witness for C2 at a concrete nine-byte stream (with a pending error
after its data, which must also be preserved). -/
theorem detect_reconstructs_stream_witness :
    (DetectCompressionFormat ⟨[9, 9, 9, 9, 9, 9, 9, 9, 9], some 3⟩).2.2.1 =
      some ⟨[9, 9, 9, 9, 9, 9, 9, 9, 9], some 3⟩ ∧
    (⟨[9, 9, 9, 9, 9, 9, 9, 9, 9], some 3⟩ : Reader) =
      ⟨[9, 9, 9, 9, 9, 9, 9, 9, 9], some 3⟩ :=
  ⟨by decide, detect_reconstructs_stream _ _ (by decide)⟩

/-- Counterexample to C3 as stated: the three-byte stream
`1F 8B 08` is shorter than the longest registered prefix (6, for xz), yet
detection does match it — it returns name "gzip" and the gzip
decompressor, not "no match". -/
theorem short_stream_can_match_cex :
    (⟨[0x1F, 0x8B, 0x08], none⟩ : Reader).data.length < maxPrefixLen ∧
    (DetectCompressionFormat ⟨[0x1F, 0x8B, 0x08], none⟩).1 = "gzip" ∧
    (DetectCompressionFormat ⟨[0x1F, 0x8B, 0x08], none⟩).2.1 = some Algo.gzip := by
  refine ⟨by decide, by decide, by decide⟩

/-- Claim C3 (amended): for every input stream shorter than the longest
registered magic prefix (ending cleanly), detection returns no error and
a reconstructed stream identical to the input; and it returns a match
exactly when the stream's leading bytes begin with a registered magic
prefix — any returned match's prefix starts the data, and any
algorithm whose (shorter) magic prefix starts the data is returned as
the match, with its registry name. -/
theorem detect_short_stream (S : Reader) (hf : S.fail = none)
    (hlen : S.data.length < maxPrefixLen) :
    ∃ n d, DetectCompressionFormat S = (n, d, some S, none) ∧
      (∀ a, d = some a → algoPrefix a <+: S.data) ∧
      (∀ a, algoPrefix a <+: S.data → d = some a ∧ n = algoName a) := by
  have h := detect_succ S (Or.inl hf)
  refine ⟨_, _, h, ?_, ?_⟩
  · intro a ha
    have hpre := findAlgo_mem_prefix compressionAlgos
      (S.data.take detectBufferSize) a (by decide) ha
    exact hpre.trans (List.take_prefix _ _)
  · intro a ha
    have h8 := prefix_take_of_prefix ha (algoPrefix_length_le a)
    have hfa := findAlgo_of_prefix a _ h8
    rw [hfa]
    exact ⟨rfl, rfl⟩

/-- Witness for C3 (amended) at the three-byte stream `1F 8B 08`, which
exercises the match direction: shorter than the longest prefix, yet
matched as gzip. -/
theorem detect_short_stream_witness :
    (⟨[0x1F, 0x8B, 0x08], none⟩ : Reader).fail = none ∧
    (⟨[0x1F, 0x8B, 0x08], none⟩ : Reader).data.length < maxPrefixLen ∧
    (∃ n d, DetectCompressionFormat ⟨[0x1F, 0x8B, 0x08], none⟩ =
        (n, d, some ⟨[0x1F, 0x8B, 0x08], none⟩, none) ∧
      (∀ a, d = some a →
        algoPrefix a <+: (⟨[0x1F, 0x8B, 0x08], none⟩ : Reader).data) ∧
      (∀ a, algoPrefix a <+: (⟨[0x1F, 0x8B, 0x08], none⟩ : Reader).data →
        d = some a ∧ n = algoName a)) :=
  ⟨rfl, by decide, detect_short_stream _ rfl (by decide)⟩

/-- Counterexample to C4 as stated: the peek size is 8 but the longest
magic prefix registered in `compressionAlgos` has length 6 (xz), so the
two are not equal. -/
theorem peek_size_ne_max_prefix_cex :
    maxPrefixLen = 6 ∧ detectBufferSize = 8 ∧
    detectBufferSize ≠ maxPrefixLen := by
  decide

/-- Claim C4 (amended): the peek size N = 8 is an upper bound on — not
equal to — the registered magic prefix lengths: the longest is 6, and
every registry entry's prefix fits within the peek buffer. -/
theorem peek_size_bounds_prefixes :
    maxPrefixLen = 6 ∧ maxPrefixLen ≤ detectBufferSize ∧
    ∀ e ∈ compressionAlgos, e.2.1.length ≤ detectBufferSize := by
  decide

/-- Witness for C4 (amended) at the gzip registry entry. -/
theorem peek_size_bounds_prefixes_witness :
    (("gzip", [0x1F, 0x8B, 0x08], Algo.gzip) : String × List Nat × Algo) ∈
      compressionAlgos ∧
    ([0x1F, 0x8B, 0x08] : List Nat).length ≤ detectBufferSize :=
  ⟨by decide,
   peek_size_bounds_prefixes.2.2 ("gzip", [0x1F, 0x8B, 0x08], Algo.gzip)
     (by decide)⟩

/-- Claim C5: a real I/O error (anything other than end-of-stream)
raised while peeking is returned immediately and unmodified — the very
same error value — together with an empty name, no decompressor and no
reconstructed stream. -/
theorem detect_propagates_real_error (S : Reader) (e : Nat)
    (hf : S.fail = some e) (hshort : S.data.length < detectBufferSize) :
    DetectCompressionFormat S = ("", none, none, some e) :=
  detect_err S e hf hshort

/-- Witness for C5 at the stream `01 02` followed by error 7. -/
theorem detect_propagates_real_error_witness :
    (⟨[1, 2], some 7⟩ : Reader).fail = some 7 ∧
    (⟨[1, 2], some 7⟩ : Reader).data.length < detectBufferSize ∧
    DetectCompressionFormat ⟨[1, 2], some 7⟩ = ("", none, none, some 7) :=
  ⟨rfl, by decide, detect_propagates_real_error _ 7 rfl (by decide)⟩

end Compression

namespace Compression

/-- If no registered prefix starts the buffer, the registry scan returns
the zero values: empty name, no decompressor. -/
theorem findAlgo_none (L : List (String × List Nat × Algo)) (buf : List Nat)
    (h : ∀ e ∈ L, ¬ e.2.1 <+: buf) : findAlgo buf L = ("", none) := by
  induction L with
  | nil => simp [findAlgo]
  | cons e rest ih =>
      obtain ⟨nm, pre, d⟩ := e
      have h1 : ¬ pre <+: buf := h _ (List.mem_cons_self _ _)
      simp only [findAlgo]
      rw [if_neg (by simpa [List.isPrefixOf_iff_prefix] using h1)]
      exact ih (fun x hx => h x (List.mem_cons_of_mem _ hx))

/-- Claim C9: on a stream whose leading bytes match no registered magic
prefix, `AutoDecompress` reports no error and `wasCompressed = false`,
and returns the reconstructed stream (identical to the input) wrapped in
the no-op closer, so the decoded bytes are exactly the input bytes. -/
theorem auto_nomatch_passthrough (D : Algo → Reader → Except Nat (List Nat))
    (S : Reader)
    (hc : S.fail = none ∨ detectBufferSize ≤ S.data.length)
    (hnm : ∀ e ∈ compressionAlgos, ¬ e.2.1 <+: S.data) :
    AutoDecompress D S = (some (RC.nopCloser S), false, none) := by
  have hd := detect_succ S hc
  have hnm8 : ∀ e ∈ compressionAlgos,
      ¬ e.2.1 <+: S.data.take detectBufferSize := by
    intro e he hp
    exact hnm e he (hp.trans (List.take_prefix _ _))
  have hfa := findAlgo_none compressionAlgos (S.data.take detectBufferSize) hnm8
  simp [AutoDecompress, DetectCompression, hd, hfa]

/-- Witness for C9 at the unrecognized stream `00 01 02 03`. -/
theorem auto_nomatch_passthrough_witness :
    ((⟨[0, 1, 2, 3], none⟩ : Reader).fail = none ∨
      detectBufferSize ≤ (⟨[0, 1, 2, 3], none⟩ : Reader).data.length) ∧
    (∀ e ∈ compressionAlgos,
      ¬ e.2.1 <+: (⟨[0, 1, 2, 3], none⟩ : Reader).data) ∧
    AutoDecompress (fun _ _ => Except.error 0) ⟨[0, 1, 2, 3], none⟩ =
      (some (RC.nopCloser ⟨[0, 1, 2, 3], none⟩), false, none) :=
  ⟨Or.inl rfl, by decide,
   auto_nomatch_passthrough (fun _ _ => Except.error 0) ⟨[0, 1, 2, 3], none⟩
     (Or.inl rfl) (by decide)⟩

/-- Claim C6: whenever `AutoDecompress` fails, it returns no stream and
its error is the underlying cause wrapped with the stage label of the
failing stage: "Error detecting compression" when detection failed,
"Error initializing decompression" when the matched decompressor
constructor failed. -/
theorem auto_error_wrapped (D : Algo → Reader → Except Nat (List Nat))
    (S : Reader) (e : AutoErr)
    (h : (AutoDecompress D S).2.2 = some e) :
    (AutoDecompress D S).1 = none ∧
    ((∃ c, (DetectCompressionFormat S).2.2.2 = some c ∧
        e = AutoErr.wrapped "Error detecting compression" c) ∨
     (∃ a r c, (DetectCompressionFormat S).2.1 = some a ∧
        (DetectCompressionFormat S).2.2.1 = some r ∧
        D a r = Except.error c ∧
        e = AutoErr.wrapped "Error initializing decompression" c)) := by
  rcases hdet : DetectCompressionFormat S with ⟨n, d, re, er⟩
  cases er with
  | some c =>
      simp only [AutoDecompress, DetectCompression, hdet] at h ⊢
      refine ⟨trivial, Or.inl ⟨c, by simp, ?_⟩⟩
      exact (Option.some_inj.mp h).symm
  | none =>
      cases d with
      | none =>
          cases re with
          | some r => simp [AutoDecompress, DetectCompression, hdet] at h
          | none => simp [AutoDecompress, DetectCompression, hdet] at h
      | some a =>
          cases re with
          | none => simp [AutoDecompress, DetectCompression, hdet] at h
          | some r =>
              cases hD : D a r with
              | error c =>
                  simp only [AutoDecompress, DetectCompression, hdet, hD] at h ⊢
                  refine ⟨trivial, Or.inr ⟨a, r, c, by simp, by simp, hD, ?_⟩⟩
                  exact (Option.some_inj.mp h).symm
              | ok bs =>
                  simp [AutoDecompress, DetectCompression, hdet, hD] at h

/-- Witness for C6: a decompressor whose construction fails with cause 5
on a stream carrying the gzip magic. -/
theorem auto_error_wrapped_witness :
    (AutoDecompress (fun _ _ => Except.error 5)
        ⟨[0x1F, 0x8B, 0x08, 0, 0, 0, 0, 0, 0], none⟩).2.2 =
      some (AutoErr.wrapped "Error initializing decompression" 5) ∧
    ((AutoDecompress (fun _ _ => Except.error 5)
        ⟨[0x1F, 0x8B, 0x08, 0, 0, 0, 0, 0, 0], none⟩).1 = none ∧
     ((∃ c, (DetectCompressionFormat
          ⟨[0x1F, 0x8B, 0x08, 0, 0, 0, 0, 0, 0], none⟩).2.2.2 = some c ∧
        AutoErr.wrapped "Error initializing decompression" 5 =
          AutoErr.wrapped "Error detecting compression" c) ∨
      (∃ a r c, (DetectCompressionFormat
          ⟨[0x1F, 0x8B, 0x08, 0, 0, 0, 0, 0, 0], none⟩).2.1 = some a ∧
        (DetectCompressionFormat
          ⟨[0x1F, 0x8B, 0x08, 0, 0, 0, 0, 0, 0], none⟩).2.2.1 = some r ∧
        (fun _ _ => (Except.error 5 : Except Nat (List Nat))) a r =
          Except.error c ∧
        AutoErr.wrapped "Error initializing decompression" 5 =
          AutoErr.wrapped "Error initializing decompression" c))) :=
  ⟨by decide,
   auto_error_wrapped (fun _ _ => Except.error 5)
     ⟨[0x1F, 0x8B, 0x08, 0, 0, 0, 0, 0, 0], none⟩
     (AutoErr.wrapped "Error initializing decompression" 5) (by decide)⟩

/-- Claim C7: a name absent from the `compressors` registry yields the
descriptive error naming the requested algorithm and no stream. -/
theorem compress_unknown_name (dest : Nat) (name : String) (level : Option Int)
    (h : List.lookup name compressors = none) :
    CompressStream dest name level =
      Except.error ("cannot find compressor for " ++ squote ++ name ++ squote) := by
  simp [CompressStream, h]

/-- Witness for C7 at the unregistered name "foo". -/
theorem compress_unknown_name_witness :
    List.lookup "foo" compressors = none ∧
    CompressStream 0 "foo" none =
      Except.error ("cannot find compressor for " ++ squote ++ "foo" ++ squote) :=
  ⟨rfl, compress_unknown_name 0 "foo" none rfl⟩

/-- Claim C8: codecs that cannot compress fail deterministically with an
explicit "not supported" error and no stream, whatever the level: the
decode-only bzip2 codec always, and the zstd codec of the non-cgo build
always. -/
theorem compress_unsupported_codecs (dest : Nat) (level : Option Int) :
    bzip2Compressor dest level =
      Except.error "bzip2 compression not supported" ∧
    zstdCompressorNocgo dest level = Except.error "zstd not supported" :=
  ⟨rfl, rfl⟩

/-- Claim C10: `xzCompressor` ignores its optional level argument — any
two levels (present or absent) produce the identical writer. -/
theorem xz_ignores_level (dest : Nat) (l1 l2 : Option Int) :
    xzCompressor dest l1 = xzCompressor dest l2 := rfl

/-- Claim C1: round trip.  The codec libraries are opaque capability
providers; `emit wc B` is the bytes a writer `wc` deposits in its
destination when `B` is written through it and it is closed, and `D` is
the decompressor family.  Whenever `CompressStream` dispatches a name to
a writer, the writer's output carries its codec's registered magic
prefix, and the codec's decompressor inverts it (the interface contract
of the libraries), `AutoDecompress` on the compressed bytes
detection-driven returns exactly the original bytes. -/
theorem compress_autoDecompress_roundtrip
    (emit : WC → List Nat → List Nat)
    (D : Algo → Reader → Except Nat (List Nat))
    (dest : Nat) (name : String) (lvl : Option Int) (B : List Nat) (wc : WC)
    (hok : CompressStream dest name lvl = Except.ok wc)
    (hpre : algoPrefix wc.algo <+: emit wc B)
    (hrt : D wc.algo ⟨emit wc B, none⟩ = Except.ok B) :
    AutoDecompress D ⟨emit wc B, none⟩ = (some (RC.decoded B), true, none) := by
  have hd := detect_succ ⟨emit wc B, none⟩ (Or.inl rfl)
  have hp8 : algoPrefix wc.algo <+: (emit wc B).take detectBufferSize :=
    prefix_take_of_prefix hpre (algoPrefix_length_le _)
  have hfa := findAlgo_of_prefix wc.algo _ hp8
  simp only at hd
  simp [AutoDecompress, DetectCompression, hd, hfa, hrt]

/-- Toy codec emission used to witness the round-trip law: writing `B`
through a writer deposits the codec's magic prefix followed by `B`. -/
def prefixEmit (wc : WC) (B : List Nat) : List Nat := algoPrefix wc.algo ++ B

/-- Toy decompressor family inverting `prefixEmit`: strip the magic
prefix, failing if it is absent. -/
def prefixDecomp (a : Algo) (r : Reader) : Except Nat (List Nat) :=
  if (algoPrefix a).isPrefixOf r.data then
    Except.ok (r.data.drop (algoPrefix a).length)
  else Except.error 0

/-- Witness for C1: the xz codec on payload `07 2A`. -/
theorem compress_autoDecompress_roundtrip_witness :
    CompressStream 0 "xz" none = Except.ok (WC.xzW 0) ∧
    algoPrefix (WC.xzW 0).algo <+: prefixEmit (WC.xzW 0) [7, 42] ∧
    prefixDecomp (WC.xzW 0).algo ⟨prefixEmit (WC.xzW 0) [7, 42], none⟩ =
      Except.ok [7, 42] ∧
    AutoDecompress prefixDecomp ⟨prefixEmit (WC.xzW 0) [7, 42], none⟩ =
      (some (RC.decoded [7, 42]), true, none) :=
  ⟨rfl, by decide, rfl,
   compress_autoDecompress_roundtrip prefixEmit prefixDecomp 0 "xz" none
     [7, 42] (WC.xzW 0) rfl (by decide) rfl⟩

end Compression
